import Mathlib

/-!
Verification development for the straits-utils trait/capability-dispatch
library (`src/index.js`).

The embedding models the JavaScript semantics the library relies on:

* `Value` is the universe of JS values the library manipulates
  (numbers are modelled as `Int`: the claims never exercise float
  behaviour such as `NaN`).
* `JSObj` is a heap object: insertion-ordered own string-keyed
  properties, own symbol-keyed properties, an optional prototype
  reference, and an optional `[[Call]]` behaviour (present exactly for
  function objects).
* Symbols are identified by allocation index into `State.symNames`
  (each `Symbol(name)` call yields a fresh index; the description is
  kept for diagnostics, matching `String(sym).slice(7, -1)` in the
  source).
* Implementation functions are defunctionalized by `FnImpl`:
  `pureFn` is an arbitrary host function (modelled pure: it returns a
  result from `this` and the argument list), while `methodWrapper`
  is the closure allocated by
  `Object.prototype.*defineAndImplMethodsAsTraits`, which re-reads
  `source[methodName]` at every call.
* Operations that mutate state return `State × Except JSError Value`,
  never rolling the state back on a throw: this mirrors JS exceptions,
  which abort a loop but keep all mutations already performed.
* Property lookup walks the prototype chain with fuel
  `heap.length + 1`, enough for any acyclic chain inside the heap.
-/

deriving instance DecidableEq for Except

namespace StraitsUtils

inductive Value where
  | undefined
  | vnull
  | vbool (b : Bool)
  | vnum (n : Int)
  | vstr (s : String)
  | vsym (id : Nat)
  | vobj (ref : Nat)
deriving DecidableEq, Repr

/-- Errors surfaced by the embedded operations.  The source throws plain
`Error`s for missing implementations and Node `assert` failures for the
trait-set guards; both carry only a message, so the spec's named error
kinds (`NoImplementation`, `DuplicateTraitDefinition`,
`InvalidTraitReference`) correspond to `noImpl` and to `assertFail` with
the respective message.  `typeError` models host `TypeError`s
(`Object.defineProperty` on a non-object, calling a non-callable,
string-converting a symbol).  `outOfFuel` models runaway recursion
(a `RangeError` in the host); it is unreachable in the scenarios of the
claims. -/
inductive JSError where
  | typeError
  | outOfFuel
  | noImpl (msg : String)
  | assertFail (msg : String)
deriving DecidableEq, Repr

/-- Defunctionalized implementation functions (see the module docstring). -/
inductive FnImpl where
  | pureFn (fn : Value → List Value → Value)
  | methodWrapper (source : Value) (methodName : String)

/-- A heap object: own string properties (insertion-ordered, as JS
enumerates them), own symbol-keyed properties, optional prototype, and
optional call behaviour. -/
structure JSObj where
  strProps : List (String × Value)
  symProps : List (Nat × Value)
  proto : Option Nat
  call : Option FnImpl

/-- Global state: the heap, the process-wide default-implementation map
(`Symbol['@straits'].defaultImpls`), and the descriptions of the symbols
allocated so far (a symbol is its index into this list). -/
structure State where
  heap : List JSObj
  defaultImpls : List (Nat × Value)
  symNames : List String

/-- Association-list lookup keyed on the first component. -/
def alook {α β : Type} [DecidableEq α] (k : α) : List (α × β) → Option β
  | [] => none
  | (k', v) :: rest => if k' = k then some v else alook k rest

/-- Association-list update: replaces in place (JS property update keeps
the insertion position), appends when the key is new. -/
def aset {α β : Type} [DecidableEq α] (k : α) (v : β) : List (α × β) → List (α × β)
  | [] => [(k, v)]
  | (k', v') :: rest => if k' = k then (k, v) :: rest else (k', v') :: aset k v rest

/-- JS ToBoolean (no floats in the model, so no NaN case). -/
def truthy : Value → Bool
  | .undefined => false
  | .vnull => false
  | .vbool b => b
  | .vnum n => if n = 0 then false else true
  | .vstr s => if s = "" then false else true
  | .vsym _ => true
  | .vobj _ => true

/-- The `target === undefined || target === null` test of the dispatch
algorithm. -/
def Value.isNullish : Value → Bool
  | .undefined => true
  | .vnull => true
  | _ => false

/-- Whether a value is a symbol (`typeof v === 'symbol'`). -/
def isSymV : Value → Bool
  | .vsym _ => true
  | _ => false

/-- Whether a value is an object (including functions). -/
def isObjV : Value → Bool
  | .vobj _ => true
  | _ => false

/-- Symbol-keyed property lookup along the prototype chain, with fuel. -/
def getSymChain (h : List JSObj) : Nat → Nat → Nat → Value
  | 0, _, _ => .undefined
  | f + 1, r, s =>
    match h[r]? with
    | none => .undefined
    | some o =>
      match alook s o.symProps with
      | some v => v
      | none =>
        match o.proto with
        | some p => getSymChain h f p s
        | none => .undefined

/-- String-keyed property lookup along the prototype chain, with fuel. -/
def getStrChain (h : List JSObj) : Nat → Nat → String → Value
  | 0, _, _ => .undefined
  | f + 1, r, nm =>
    match h[r]? with
    | none => .undefined
    | some o =>
      match alook nm o.strProps with
      | some v => v
      | none =>
        match o.proto with
        | some p => getStrChain h f p nm
        | none => .undefined

/-- The property read `target[sym]`.  Primitive non-null targets box to a
wrapper whose builtin prototype carries no symbol bindings (the library
can never attach one: `Object.defineProperty` rejects primitives), so the
read yields `undefined` for them. -/
def getSym (st : State) (target : Value) (s : Nat) : Value :=
  match target with
  | .vobj r => getSymChain st.heap (st.heap.length + 1) r s
  | _ => .undefined

/-- The property read `obj[name]` on a heap object reference. -/
def getStrOf (st : State) (r : Nat) (nm : String) : Value :=
  getStrChain st.heap (st.heap.length + 1) r nm

/-- The property read `v[name]` on an arbitrary value: throws `TypeError`
on `null`/`undefined`, yields `undefined` on other primitives (their
builtin prototypes carry none of the properties this library reads). -/
def getStrE (st : State) (v : Value) (nm : String) : Except JSError Value :=
  match v with
  | .undefined => .error .typeError
  | .vnull => .error .typeError
  | .vobj r => .ok (getStrOf st r nm)
  | _ => .ok .undefined

/-- Own string-keyed property of a heap object (`hasOwnProperty`-level
access). -/
def ownStr (st : State) (r : Nat) (nm : String) : Option Value :=
  match st.heap[r]? with
  | some o => alook nm o.strProps
  | none => none

/-- JS string conversion as used by the template literals of the source.
Converting a symbol throws `TypeError`.  Objects are converted by the
default `Object.prototype.toString`; custom `toString` methods are not
modelled (no claim exercises one). -/
def toStrE : Value → Except JSError String
  | .undefined => .ok "undefined"
  | .vnull => .ok "null"
  | .vbool b => .ok (if b then "true" else "false")
  | .vnum n => .ok (toString n)
  | .vstr s => .ok s
  | .vsym _ => .error .typeError
  | .vobj _ => .ok "[object Object]"

/-- The `.slice(7, -1)` of the source applied to a string. -/
def jsSlice7m1 (s : String) : String :=
  ⟨(s.data.drop 7).dropLast⟩

/-- `String(sym)` for an allocated symbol. -/
def symToString (st : State) (i : Nat) : String :=
  "Symbol(" ++ st.symNames.getD i "" ++ ")"

/-- `String(this).slice(7, -1)` — the diagnostic name the dispatch
closure computes for its symbol. -/
def symDiagName (st : State) (i : Nat) : String :=
  jsSlice7m1 (symToString st i)

/-- Replace the heap object at index `r`. -/
def setObj (st : State) (r : Nat) (o : JSObj) : State :=
  { st with heap := st.heap.set r o }

/-- Invocation of a value: throws `TypeError` unless the value is a
function object, then runs its `FnImpl`.  `fuel` bounds the nesting of
`methodWrapper` calls (each wrapper re-reads `source[methodName]` and
calls it with `source` as receiver and `this` prepended to the
arguments, mirroring `source[methodName]( this, ...arguments )`). -/
def callValue (st : State) : Nat → Value → Value → List Value → Except JSError Value
  | 0, v, thisV, args =>
    match v with
    | .vobj r =>
      match st.heap[r]? with
      | some o =>
        match o.call with
        | some (.pureFn fn) => .ok (fn thisV args)
        | some (.methodWrapper _ _) => .error .outOfFuel
        | none => .error .typeError
      | none => .error .typeError
    | _ => .error .typeError
  | f + 1, v, thisV, args =>
    match v with
    | .vobj r =>
      match st.heap[r]? with
      | some o =>
        match o.call with
        | some (.pureFn fn) => .ok (fn thisV args)
        | some (.methodWrapper source m) =>
          match getStrE st source m with
          | .ok fv => callValue st f fv source (thisV :: args)
          | .error e => .error e
        | none => .error .typeError
      | none => .error .typeError
    | _ => .error .typeError

/-- The method call `recv[m]( ...args )`. -/
def jsMethodCall (st : State) (fuel : Nat) (recv : Value) (m : String) (args : List Value) :
    Except JSError Value :=
  match getStrE st recv m with
  | .ok fv => callValue st fuel fv recv args
  | .error e => .error e

/-- Body of the closure returned by `Symbol.prototype.*asFreeFunction`
(the free-function form of the dispatch algorithm), specialised to the
symbol `symId`:

* a `null`/`undefined` target goes straight to the default registry,
  else throws with a message naming the trait and the target;
* otherwise the binding `target[sym]` is fetched and tested for
  truthiness; a truthy binding is invoked with `target` as receiver and
  its result returned unchanged;
* a falsy binding falls back to the default registry, else throws.

A default implementation is invoked as a plain call
(`defaultImpls.get(sym)( target, ...args )`), receiver `undefined`,
with the original target prepended to the arguments. -/
def dispatch (st : State) (fuel : Nat) (symId : Nat) (target : Value) (args : List Value) :
    Except JSError Value :=
  if target.isNullish then
    match alook symId st.defaultImpls with
    | some d => callValue st fuel d .undefined (target :: args)
    | none =>
      match toStrE target with
      | .ok t => .error (.noImpl (".*" ++ symDiagName st symId ++ " called on " ++ t))
      | .error e => .error e
  else
    if truthy (getSym st target symId) then
      callValue st fuel (getSym st target symId) target args
    else
      match alook symId st.defaultImpls with
      | some d => callValue st fuel d .undefined (target :: args)
      | none =>
        match toStrE target with
        | .ok t =>
          .error (.noImpl
            (".*" ++ symDiagName st symId ++ " called on " ++ t ++ " that doesn't implement it."))
        | .error e => .error e

/-- `Symbol.prototype.*impl`: `Object.defineProperty( target, this,
{value: implementation, configurable: true} )`, then returns `this`.
`Object.defineProperty` throws `TypeError` when `target` is not an
object; on an object it (re)defines the own symbol-keyed property
(the descriptor is configurable, so redefinition always succeeds). -/
def impl (st : State) (symId : Nat) (target implementation : Value) :
    State × Except JSError Value :=
  match target with
  | .vobj r =>
    match st.heap[r]? with
    | some o =>
      (setObj st r { o with symProps := aset symId implementation o.symProps },
       .ok (.vsym symId))
    | none => (st, .error .typeError)
  | _ => (st, .error .typeError)

/-- `Symbol.prototype.*implDefault`: `namespace.defaultImpls.set( this,
implementation )`, then returns `this`.  `Map.set` replaces any previous
entry for the symbol. -/
def implDefault (st : State) (symId : Nat) (implementation : Value) :
    State × Except JSError Value :=
  ({ st with defaultImpls := aset symId implementation st.defaultImpls },
   .ok (.vsym symId))

/-- `Object.prototype.*addSymbol`: asserts the trait set has no own
property `name` yet, asserts the new value is a symbol, then assigns
`this[name] = sym` and returns it. -/
def addSymbol (st : State) (selfRef : Nat) (name : String) (v : Value) :
    State × Except JSError Value :=
  match st.heap[selfRef]? with
  | none => (st, .error .typeError)
  | some o =>
    match alook name o.strProps with
    | some _ => (st, .error (.assertFail ("Trying to re-define trait `" ++ name ++ "`")))
    | none =>
      match v with
      | .vsym s =>
        (setObj st selfRef { o with strProps := aset name v o.strProps }, .ok (.vsym s))
      | _ => (st, .error (.assertFail ("Trying to add `" ++ name ++ "`, but it's not a symbol")))

/-- `Object.prototype.*defineTrait`: allocates `Symbol(name)` (the
argument is evaluated before `addSymbol` runs, so the fresh symbol
exists even when the duplicate guard then fires) and adds it under
`name`. -/
def defineTrait (st : State) (selfRef : Nat) (name : String) :
    State × Except JSError Value :=
  addSymbol { st with symNames := st.symNames ++ [name] } selfRef name
    (.vsym st.symNames.length)

/-- Loop of `Object.prototype.*borrowTraits` when a list of names is
supplied: `names.forEach( name => this.*addSymbol( name, traitSet[name] ) )`.
A thrown assertion aborts the loop, keeping earlier additions. -/
def borrowGo (selfRef : Nat) (traitSet : Value) : State → List String → State × Except JSError Value
  | st, [] => (st, .ok (.vobj selfRef))
  | st, n :: rest =>
    match getStrE st traitSet n with
    | .error e => (st, .error e)
    | .ok v =>
      match addSymbol st selfRef n v with
      | (st', .ok _) => borrowGo selfRef traitSet st' rest
      | (st', .error e) => (st', .error e)

/-- Loop of `Object.prototype.*borrowTraits` when no names are supplied:
`for( key in traitSet )`, keeping only symbol-valued entries. -/
def borrowAllGo (selfRef : Nat) : State → List (String × Value) → State × Except JSError Value
  | st, [] => (st, .ok (.vobj selfRef))
  | st, (k, v) :: rest =>
    match v with
    | .vsym _ =>
      match addSymbol st selfRef k v with
      | (st', .ok _) => borrowAllGo selfRef st' rest
      | (st', .error e) => (st', .error e)
    | _ => borrowAllGo selfRef st rest

/-- `Object.prototype.*borrowTraits`.  `names` is `Option`al: the
omitted form enumerates the other set's string keys. -/
def borrowTraits (st : State) (selfRef : Nat) (traitSet : Value) (names : Option (List String)) :
    State × Except JSError Value :=
  match names with
  | none =>
    match traitSet with
    | .vobj r =>
      match st.heap[r]? with
      | some o => borrowAllGo selfRef st o.strProps
      | none => (st, .ok (.vobj selfRef))
    | _ => (st, .ok (.vobj selfRef))
  | some ns => borrowGo selfRef traitSet st ns

/-- Loop of `Object.prototype.*implTraits`: for each entry, reads
`this[name]`, asserts it is a symbol (`No trait \x60name\x60` otherwise),
then attaches the implementation via `impl`.  A thrown assertion aborts
the loop, keeping the bindings already attached. -/
def implTraitsGo (selfRef : Nat) (target : Value) :
    State → List (String × Value) → State × Except JSError Value
  | st, [] => (st, .ok (.vobj selfRef))
  | st, (name, v) :: rest =>
    match getStrOf st selfRef name with
    | .vsym s =>
      match impl st s target v with
      | (st', .ok _) => implTraitsGo selfRef target st' rest
      | (st', .error e) => (st', .error e)
    | _ => (st, .error (.assertFail ("No trait `" ++ name ++ "`")))

/-- `Object.prototype.*implTraits` (the spec's `implementMany`).  The
implementation object is modelled as its insertion-ordered entry list,
the order `for...in` enumerates. -/
def implTraits (st : State) (selfRef : Nat) (target : Value)
    (implementationObj : List (String × Value)) : State × Except JSError Value :=
  implTraitsGo selfRef target st implementationObj

/-- The function object allocated for one adapted method:
`function() { return source[methodName]( this, ...arguments ); }`. -/
def wrapperObj (source : Value) (m : String) : JSObj :=
  { strProps := [], symProps := [], proto := none, call := some (.methodWrapper source m) }

/-- Allocation of a fresh object at the end of the heap. -/
def pushObj (st : State) (o : JSObj) : State :=
  { st with heap := st.heap ++ [o] }

/-- Loop of `Object.prototype.*defineAndImplMethodsAsTraits`: for each
method name, defines a fresh trait, allocates the wrapper closure as a
new function object (its reference is the pre-allocation heap length),
and attaches it to the target under the fresh symbol. -/
def adaptGo (selfRef : Nat) (target source : Value) :
    State → List String → State × Except JSError Value
  | st, [] => (st, .ok (.vobj selfRef))
  | st, m :: rest =>
    match defineTrait st selfRef m with
    | (st1, .ok (.vsym s)) =>
      match impl (pushObj st1 (wrapperObj source m)) s target (.vobj st1.heap.length) with
      | (st3, .ok _) => adaptGo selfRef target source st3 rest
      | (st3, .error e) => (st3, .error e)
    | (st1, .ok _) => (st1, .error .typeError)
    | (st1, .error e) => (st1, .error e)

/-- `Object.prototype.*defineAndImplMethodsAsTraits` (the spec's
`adaptMethods`). -/
def defineAndImplMethodsAsTraits (st : State) (selfRef : Nat) (target source : Value)
    (methodList : List String) : State × Except JSError Value :=
  adaptGo selfRef target source st methodList

/-- Whether a dispatch outcome is the spec's `NoImplementation` error. -/
def isNoImpl : Except JSError Value → Bool
  | .error (.noImpl _) => true
  | _ => false

/-- What symbol-keyed lookup of `s` observes of heap slot `r`: the own
binding (if any) and the prototype link.  `getSymChain` is determined by
this view, which makes heap-modification lemmas compositional. -/
def symView (h : List JSObj) (s : Nat) (r : Nat) : Option Value × Option Nat :=
  match h[r]? with
  | none => (none, none)
  | some o => (alook s o.symProps, o.proto)

/-- Example state shared by several witnesses: a plain object at heap
index 0, a pure function at heap index 1, one allocated symbol named
`t`, and no defaults. -/
def exA : State :=
  { heap := [ { strProps := [], symProps := [], proto := none, call := none },
              { strProps := [], symProps := [], proto := none,
                call := some (.pureFn fun _ args => .vnum (42 + args.length)) },
              { strProps := [], symProps := [], proto := none,
                call := some (.pureFn fun _ _ => .vnum 7) } ],
    defaultImpls := [], symNames := ["t"] }

/-- Example state for the adaptation scenario: an empty trait set at 0,
a target at 1, a source at 2 whose method `m` is the function at 3. -/
def exB : State :=
  { heap := [ { strProps := [], symProps := [], proto := none, call := none },
              { strProps := [], symProps := [], proto := none, call := none },
              { strProps := [("m", .vobj 3)], symProps := [], proto := none, call := none },
              { strProps := [], symProps := [], proto := none,
                call := some (.pureFn fun _ args => .vnum (100 + args.length)) } ],
    defaultImpls := [], symNames := [] }

/-- Example state for the bulk-implementation scenario: a trait set at 0
holding the single trait `good`, a target at 1, a function at 2. -/
def exC : State :=
  { heap := [ { strProps := [("good", .vsym 0)], symProps := [], proto := none, call := none },
              { strProps := [], symProps := [], proto := none, call := none },
              { strProps := [], symProps := [], proto := none,
                call := some (.pureFn fun _ _ => .undefined) } ],
    defaultImpls := [], symNames := ["good"] }

/-- Example state for the borrowing scenario: trait set `A` at 0 holding
`t`, an empty trait set `B` at 1, and a shared target at 2. -/
def exD : State :=
  { heap := [ { strProps := [("t", .vsym 0)], symProps := [], proto := none, call := none },
              { strProps := [], symProps := [], proto := none, call := none },
              { strProps := [], symProps := [], proto := none, call := none } ],
    defaultImpls := [], symNames := ["t"] }

/-- Example state for the falsy-binding scenario: the object at 0 has
the trait symbol bound to `false`, and the function at 1 is registered
as the default implementation. -/
def exE : State :=
  { heap := [ { strProps := [], symProps := [(0, .vbool false)], proto := none, call := none },
              { strProps := [], symProps := [], proto := none,
                call := some (.pureFn fun _ args => .vnum (7 + args.length)) } ],
    defaultImpls := [(0, .vobj 1)], symNames := ["t"] }

/-! ### Basic lemmas about the association-list primitives and lookups -/

theorem alook_aset_self {α β : Type} [DecidableEq α] (k : α) (v : β) (l : List (α × β)) :
    alook k (aset k v l) = some v := by
  induction l with
  | nil => simp [alook, aset]
  | cons p rest ih =>
    by_cases h : p.1 = k
    · simp [aset, alook, h]
    · simp [aset, alook, h, ih]

theorem alook_aset_ne {α β : Type} [DecidableEq α] (k k' : α) (v : β) (l : List (α × β))
    (h : k ≠ k') : alook k' (aset k v l) = alook k' l := by
  induction l with
  | nil => simp [alook, aset, h]
  | cons p rest ih =>
    by_cases hp : p.1 = k
    · simp [aset, alook, hp, h]
    · simp [aset, alook, hp, ih]

theorem getElem?_set_self {α : Type} (l : List α) (i : Nat) (a : α) (h : i < l.length) :
    (l.set i a)[i]? = some a := by
  simp [List.getElem?_set_self', List.getElem?_eq_getElem h]

/-- Own symbol-keyed property lookup resolves first, before the
prototype chain. -/
theorem getSym_own (st : State) (r : Nat) (o : JSObj) (s : Nat) (v : Value)
    (ho : st.heap[r]? = some o) (hv : alook s o.symProps = some v) :
    getSym st (.vobj r) s = v := by
  simp [getSym, getSymChain, ho, hv]

/-- Own string-keyed property lookup resolves first, before the
prototype chain. -/
theorem getStrOf_own (st : State) (r : Nat) (o : JSObj) (nm : String) (v : Value)
    (ho : st.heap[r]? = some o) (hv : alook nm o.strProps = some v) :
    getStrOf st r nm = v := by
  simp [getStrOf, getStrChain, ho, hv]

/-- The diagnostic name the dispatch closure computes
(`String(this).slice(7, -1)`) is exactly the description the symbol was
created with. -/
theorem symDiagName_eq (st : State) (i : Nat) : symDiagName st i = st.symNames.getD i "" := by
  unfold symDiagName symToString jsSlice7m1
  generalize st.symNames.getD i "" = n
  have hdata : ("Symbol(" ++ n ++ ")").data = "Symbol(".data ++ (n.data ++ [')']) := by
    have h1 : (")" : String).data = [')'] := by decide
    simp [String.data_append, List.append_assoc, h1]
  rw [hdata]
  have h7 : ("Symbol(".data).length = 7 := by decide
  rw [← h7, List.drop_left, List.dropLast_concat]

/-! ### Claim theorems -/

/-- Claim C1: after `implement(target, id, fn)` on a target object,
calling the dispatch callable derived from `id` as
`dispatch(target, ...args)` performs exactly the invocation of `fn` with
`target` as the receiving context (`this`) and `args` as arguments,
returning its result unchanged — the two sides are the same
`callValue` invocation for every fuel and argument list. -/
theorem C1_binding_dispatch_roundtrip (st : State) (symId tr fr fuel : Nat) (args : List Value)
    (htr : tr < st.heap.length) :
    dispatch (impl st symId (.vobj tr) (.vobj fr)).1 fuel symId (.vobj tr) args
      = callValue (impl st symId (.vobj tr) (.vobj fr)).1 fuel (.vobj fr) (.vobj tr) args := by
  have ho : st.heap[tr]? = some st.heap[tr] := List.getElem?_eq_getElem htr
  have himpl : (impl st symId (.vobj tr) (.vobj fr)).1
      = setObj st tr { st.heap[tr] with
          symProps := aset symId (.vobj fr) (st.heap[tr]).symProps } := by
    simp [impl, ho]
  have hget : getSym (impl st symId (.vobj tr) (.vobj fr)).1 (.vobj tr) symId = .vobj fr := by
    refine getSym_own _ tr
      { st.heap[tr] with symProps := aset symId (.vobj fr) (st.heap[tr]).symProps } symId _ ?_ ?_
    · rw [himpl]; simpa [setObj] using getElem?_set_self st.heap tr _ htr
    · exact alook_aset_self _ _ _
  simp [dispatch, Value.isNullish, hget, truthy]

/-- Witness for C1 at a concrete state: implementing trait `0` on the
object at heap index `0` with the function at heap index `1`, then
dispatching, is the invocation of that function with the object as
receiver. -/
theorem C1_witness :
    dispatch (impl exA 0 (.vobj 0) (.vobj 1)).1 1 0 (.vobj 0) []
      = callValue (impl exA 0 (.vobj 0) (.vobj 1)).1 1 (.vobj 1) (.vobj 0) [] :=
  C1_binding_dispatch_roundtrip exA 0 0 1 1 [] (by decide)

/-- Claim C2: when the target (null targets included) carries no truthy
binding for the trait but a default implementation was registered,
dispatch performs exactly the plain call of the default with the
original target prepended to the arguments (receiver `undefined`). -/
theorem C2_default_fallback (st : State) (symId fuel : Nat) (dV target : Value)
    (args : List Value)
    (hnb : truthy (getSym (implDefault st symId dV).1 target symId) = false) :
    dispatch (implDefault st symId dV).1 fuel symId target args
      = callValue (implDefault st symId dV).1 fuel dV .undefined (target :: args) := by
  have hl : alook symId ((implDefault st symId dV).1).defaultImpls = some dV := by
    simp [implDefault, alook_aset_self]
  cases hn : target.isNullish
  · simp [dispatch, hn, hnb, hl]
  · simp [dispatch, hn, hl]

/-- Witness for C2 at a concrete state: with the function at heap index
`1` registered as default for trait `0`, dispatching on a `null` target
is the plain call of the default with `null` as first argument. -/
theorem C2_witness :
    dispatch (implDefault exA 0 (.vobj 1)).1 1 0 .vnull []
      = callValue (implDefault exA 0 (.vobj 1)).1 1 (.vobj 1) .undefined [.vnull] :=
  C2_default_fallback exA 0 1 (.vobj 1) .vnull [] (by decide)

/-- Claim C3 (amended): when neither a truthy binding nor a default
implementation exists, dispatch raises `NoImplementation` whose message
contains the trait's diagnostic name and the string representation of
the offending target — for every target whose string conversion
succeeds, i.e. every non-symbol target (see the counterexample for
symbol targets). -/
theorem C3_no_implementation_error (st : State) (symId fuel : Nat) (target : Value)
    (args : List Value) (trep : String)
    (hd : alook symId st.defaultImpls = none)
    (hb : truthy (getSym st target symId) = false)
    (ht : toStrE target = .ok trep) :
    ∃ msg, dispatch st fuel symId target args = .error (.noImpl msg) ∧
      (∃ a b, msg = a ++ symDiagName st symId ++ b) ∧
      (∃ a b, msg = a ++ trep ++ b) := by
  cases hn : target.isNullish
  · refine ⟨".*" ++ symDiagName st symId ++ " called on " ++ trep ++
        " that doesn't implement it.", ?_,
      ⟨".*", " called on " ++ trep ++ " that doesn't implement it.",
        by simp [String.append_assoc]⟩,
      ⟨".*" ++ symDiagName st symId ++ " called on ", " that doesn't implement it.",
        by simp [String.append_assoc]⟩⟩
    simp [dispatch, hn, hb, hd, ht]
  · refine ⟨".*" ++ symDiagName st symId ++ " called on " ++ trep, ?_,
      ⟨".*", " called on " ++ trep, by simp [String.append_assoc]⟩,
      ⟨".*" ++ symDiagName st symId ++ " called on ", "", by simp [String.append_assoc]⟩⟩
    simp [dispatch, hn, hd, ht]

/-- Counterexample for C3 as stated: on a symbol-valued target with no
binding and no default, dispatch raises `TypeError` (converting a
symbol to a string inside the message template throws) instead of the
claimed `NoImplementation` error. -/
theorem C3_cex :
    dispatch exA 1 0 (.vsym 0) [] = .error .typeError ∧
    isNoImpl (dispatch exA 1 0 (.vsym 0) []) = false := by
  decide

/-- Witness for the amended C3: dispatching trait `0` on the plain
object at heap index `0` of `exA` (no binding, no default) raises
`NoImplementation` with the trait name and the target representation in
the message. -/
theorem C3_witness :
    ∃ msg, dispatch exA 1 0 (.vobj 0) [] = .error (.noImpl msg) ∧
      (∃ a b, msg = a ++ symDiagName exA 0 ++ b) ∧
      (∃ a b, msg = a ++ "[object Object]" ++ b) :=
  C3_no_implementation_error exA 0 1 (.vobj 0) [] "[object Object]"
    (by decide) (by decide) (by decide)

/-- Claim C5 (amended): `implement(target, id, fn)` succeeds, returns
the identifier and overwrites any prior binding whenever the target is
an object; for any non-object target (null, undefined, or a primitive)
it throws `TypeError`, because `Object.defineProperty` requires an
object. -/
theorem C5_implement_objects_only (st : State) (symId : Nat) (v : Value) :
    (∀ r, r < st.heap.length →
        (impl st symId (.vobj r) v).2 = .ok (.vsym symId) ∧
        getSym (impl st symId (.vobj r) v).1 (.vobj r) symId = v) ∧
    (∀ target, isObjV target = false → impl st symId target v = (st, .error .typeError)) := by
  constructor
  · intro r hr
    have ho : st.heap[r]? = some st.heap[r] := List.getElem?_eq_getElem hr
    have himpl : (impl st symId (.vobj r) v).1
        = setObj st r { st.heap[r] with symProps := aset symId v (st.heap[r]).symProps } := by
      simp [impl, ho]
    refine ⟨by simp [impl, ho], ?_⟩
    refine getSym_own _ r
      { st.heap[r] with symProps := aset symId v (st.heap[r]).symProps } symId _ ?_ ?_
    · rw [himpl]; simpa [setObj] using getElem?_set_self st.heap r _ hr
    · exact alook_aset_self _ _ _
  · intro target htgt
    cases target <;> simp_all [impl, isObjV]

/-- Counterexample for C5 as stated: `implement` does not support
arbitrary targets — on the target `null` it throws `TypeError` instead
of succeeding. -/
theorem C5_cex :
    (impl exA 0 .vnull (.vobj 1)).2 = .error .typeError ∧
    (impl exA 0 .vnull (.vobj 1)).2 ≠ .ok (.vsym 0) := by
  decide

/-- Witness for the amended C5: implementing on the object at heap
index `0` succeeds and stores the binding; implementing on `undefined`
throws `TypeError`. -/
theorem C5_witness :
    ((impl exA 0 (.vobj 0) (.vobj 1)).2 = .ok (.vsym 0) ∧
      getSym (impl exA 0 (.vobj 0) (.vobj 1)).1 (.vobj 0) 0 = .vobj 1) ∧
    impl exA 0 .undefined (.vobj 1) = (exA, .error .typeError) :=
  ⟨(C5_implement_objects_only exA 0 (.vobj 1)).1 0 (by decide),
   (C5_implement_objects_only exA 0 (.vobj 1)).2 .undefined (by decide)⟩

/-- Claim C6: last-write-wins — after `implement(target, id, fnA)` then
`implement(target, id, fnB)`, the second call succeeds silently, the
stored binding is `fnB`, and every subsequent dispatch on the pair is
exactly the invocation of `fnB` (with `target` as receiver), for all
arguments. -/
theorem C6_last_write_wins (st st1 st2 : State) (symId tr fbr : Nat) (fa : Value)
    (r1 r2 : Except JSError Value)
    (h1 : impl st symId (.vobj tr) fa = (st1, r1))
    (h2 : impl st1 symId (.vobj tr) (.vobj fbr) = (st2, r2))
    (htr : tr < st.heap.length) :
    r2 = .ok (.vsym symId) ∧
    getSym st2 (.vobj tr) symId = .vobj fbr ∧
    ∀ fuel args, dispatch st2 fuel symId (.vobj tr) args
      = callValue st2 fuel (.vobj fbr) (.vobj tr) args := by
  have ho : st.heap[tr]? = some st.heap[tr] := List.getElem?_eq_getElem htr
  simp [impl, ho] at h1
  obtain ⟨h1s, h1r⟩ := h1
  have htr1 : tr < st1.heap.length := by
    rw [← h1s]; simpa [setObj] using htr
  have ho1 : st1.heap[tr]? = some st1.heap[tr] := List.getElem?_eq_getElem htr1
  simp [impl, ho1] at h2
  obtain ⟨h2s, h2r⟩ := h2
  have ho2 : st2.heap[tr]? = some { st1.heap[tr] with
      symProps := aset symId (.vobj fbr) (st1.heap[tr]).symProps } := by
    rw [← h2s]; simpa [setObj] using getElem?_set_self st1.heap tr _ htr1
  have hget : getSym st2 (.vobj tr) symId = .vobj fbr :=
    getSym_own _ tr _ symId _ ho2 (alook_aset_self _ _ _)
  refine ⟨h2r.symm, hget, ?_⟩
  intro fuel args
  simp [dispatch, Value.isNullish, hget, truthy]

/-- Witness for C6 at a concrete state: binding the function at heap
index `1` and then the function at heap index `2` for trait `0` leaves
`2` as the binding dispatch invokes. -/
theorem C6_witness :
    (impl (impl exA 0 (.vobj 0) (.vobj 1)).1 0 (.vobj 0) (.vobj 2)).2 = .ok (.vsym 0) ∧
    getSym (impl (impl exA 0 (.vobj 0) (.vobj 1)).1 0 (.vobj 0) (.vobj 2)).1 (.vobj 0) 0
      = .vobj 2 ∧
    ∀ fuel args,
      dispatch (impl (impl exA 0 (.vobj 0) (.vobj 1)).1 0 (.vobj 0) (.vobj 2)).1 fuel 0
          (.vobj 0) args
        = callValue (impl (impl exA 0 (.vobj 0) (.vobj 1)).1 0 (.vobj 0) (.vobj 2)).1 fuel
            (.vobj 2) (.vobj 0) args :=
  C6_last_write_wins exA (impl exA 0 (.vobj 0) (.vobj 1)).1
    (impl (impl exA 0 (.vobj 0) (.vobj 1)).1 0 (.vobj 0) (.vobj 2)).1 0 0 2 (.vobj 1)
    (impl exA 0 (.vobj 0) (.vobj 1)).2
    (impl (impl exA 0 (.vobj 0) (.vobj 1)).1 0 (.vobj 0) (.vobj 2)).2
    rfl rfl (by decide)

/-- Claim C7: borrowing preserves identity — after `B.borrow(A, [n])`
where `A` holds the trait symbol `s` under `n` and `B` does not yet have
`n`, the borrow succeeds, `B`'s entry for `n` is the very same symbol
value as `A`'s (which is unchanged), and no new identifier was
allocated; dispatch through either set's callable for `n` is therefore
dispatch on the same symbol and observes the same bindings. -/
theorem C7_borrow_preserves_identity (st : State) (aRef bRef s : Nat) (n : String)
    (A B : JSObj)
    (hA : st.heap[aRef]? = some A) (hB : st.heap[bRef]? = some B)
    (hne : aRef ≠ bRef)
    (ht : alook n A.strProps = some (.vsym s))
    (hfresh : alook n B.strProps = none) :
    (borrowTraits st bRef (.vobj aRef) (some [n])).2 = .ok (.vobj bRef) ∧
    ownStr (borrowTraits st bRef (.vobj aRef) (some [n])).1 bRef n = some (.vsym s) ∧
    ownStr (borrowTraits st bRef (.vobj aRef) (some [n])).1 aRef n = some (.vsym s) ∧
    (borrowTraits st bRef (.vobj aRef) (some [n])).1.symNames = st.symNames := by
  have hblt : bRef < st.heap.length := by
    by_contra hc
    rw [List.getElem?_eq_none (by omega)] at hB
    exact Option.noConfusion hB
  have hga : getStrOf st aRef n = .vsym s := getStrOf_own st aRef A n _ hA ht
  have hadd : addSymbol st bRef n (.vsym s)
      = (setObj st bRef { B with strProps := aset n (.vsym s) B.strProps }, .ok (.vsym s)) := by
    simp [addSymbol, hB, hfresh]
  have hbt : borrowTraits st bRef (.vobj aRef) (some [n])
      = (setObj st bRef { B with strProps := aset n (.vsym s) B.strProps }, .ok (.vobj bRef)) := by
    simp [borrowTraits, borrowGo, getStrE, hga, hadd]
  rw [hbt]
  refine ⟨rfl, ?_, ?_, rfl⟩
  · have hb' : (setObj st bRef { B with strProps := aset n (.vsym s) B.strProps }).heap[bRef]?
        = some { B with strProps := aset n (.vsym s) B.strProps } := by
      simpa [setObj] using getElem?_set_self st.heap bRef _ hblt
    simp [ownStr, hb', alook_aset_self]
  · have ha' : (setObj st bRef { B with strProps := aset n (.vsym s) B.strProps }).heap[aRef]?
        = some A := by
      simpa [setObj, List.getElem?_set_ne (fun h => hne h.symm)] using hA
    simp [ownStr, ha', ht]

/-- Witness for C7 at the concrete state `exD`: set `B` (heap index 1)
borrows `t` from set `A` (heap index 0) and ends up holding the
identical symbol `0`, with no fresh symbol allocated. -/
theorem C7_witness :
    (borrowTraits exD 1 (.vobj 0) (some ["t"])).2 = .ok (.vobj 1) ∧
    ownStr (borrowTraits exD 1 (.vobj 0) (some ["t"])).1 1 "t" = some (.vsym 0) ∧
    ownStr (borrowTraits exD 1 (.vobj 0) (some ["t"])).1 0 "t" = some (.vsym 0) ∧
    (borrowTraits exD 1 (.vobj 0) (some ["t"])).1.symNames = exD.symNames :=
  C7_borrow_preserves_identity exD 0 1 0 "t"
    { strProps := [("t", .vsym 0)], symProps := [], proto := none, call := none }
    { strProps := [], symProps := [], proto := none, call := none }
    (by rfl) (by rfl) (by decide) (by decide) (by decide)

/-- Reading a property off a non-nullish value never throws. -/
theorem getStrE_ok (st : State) (A : Value) (n : String) (hA : A.isNullish = false) :
    ∃ v, getStrE st A n = .ok v := by
  cases A <;> simp_all [Value.isNullish, getStrE]

/-- Claim C4 (amended): `implementMany` is not all-or-nothing.  When the
entries before the offending name all resolve, processing the list stops
at the first name that is not a trait of the set, raising
`InvalidTraitReference` — but the bindings attached for the earlier
entries remain: the final state is exactly the state after processing
the prefix.  Only when the offending name comes first is the target left
unchanged. -/
theorem C4_implementMany_not_atomic (st : State) (selfRef : Nat) (target : Value)
    (pre : List (String × Value)) (bad : String) (v : Value) (rest : List (String × Value))
    (w : Value)
    (hok : (implTraits st selfRef target pre).2 = .ok w)
    (hbad : isSymV (getStrOf (implTraits st selfRef target pre).1 selfRef bad) = false) :
    implTraits st selfRef target (pre ++ (bad, v) :: rest)
      = ((implTraits st selfRef target pre).1,
         .error (.assertFail ("No trait `" ++ bad ++ "`"))) := by
  simp only [implTraits] at hok hbad ⊢
  induction pre generalizing st with
  | nil =>
    simp only [implTraitsGo, List.nil_append] at hok hbad ⊢
    cases hg : getStrOf st selfRef bad with
    | vsym s => rw [hg] at hbad; simp [isSymV] at hbad
    | undefined => simp only [hg]
    | vnull => simp only [hg]
    | vbool b => simp only [hg]
    | vnum nn => simp only [hg]
    | vstr ss => simp only [hg]
    | vobj rr => simp only [hg]
  | cons p pre' ih =>
    obtain ⟨name, pv⟩ := p
    simp only [implTraitsGo, List.cons_append] at hok hbad ⊢
    cases hg : getStrOf st selfRef name with
    | vsym s =>
      simp only [hg] at hok hbad ⊢
      cases hi : impl st s target pv with
      | mk st2 r2 =>
        cases r2 with
        | ok x =>
          simp only [hi] at hok hbad ⊢
          exact ih st2 hok hbad
        | error e =>
          simp only [hi] at hok
          exact absurd hok (by simp)
    | undefined => simp only [hg] at hok; exact absurd hok (by simp)
    | vnull => simp only [hg] at hok; exact absurd hok (by simp)
    | vbool b => simp only [hg] at hok; exact absurd hok (by simp)
    | vnum nn => simp only [hg] at hok; exact absurd hok (by simp)
    | vstr ss => simp only [hg] at hok; exact absurd hok (by simp)
    | vobj rr => simp only [hg] at hok; exact absurd hok (by simp)

/-- Counterexample for C4 as stated: in `exC`, bulk-implementing
`good` (a trait of the set) followed by `bad` (not a trait) raises
`InvalidTraitReference` but leaves the binding for `good` attached to
the target — the target's bindings are not left unchanged. -/
theorem C4_cex :
    (implTraits exC 0 (.vobj 1) [("good", .vobj 2), ("bad", .vobj 2)]).2
      = .error (.assertFail "No trait `bad`") ∧
    getSym (implTraits exC 0 (.vobj 1) [("good", .vobj 2), ("bad", .vobj 2)]).1 (.vobj 1) 0
      = .vobj 2 := by
  decide

/-- Witness for the amended C4: the failing bulk-implementation of
`exC` ends in exactly the state reached after its valid prefix. -/
theorem C4_witness :
    implTraits exC 0 (.vobj 1) ([("good", Value.vobj 2)] ++ ("bad", Value.vobj 2) :: [])
      = ((implTraits exC 0 (.vobj 1) [("good", Value.vobj 2)]).1,
         .error (.assertFail ("No trait `" ++ "bad" ++ "`"))) :=
  C4_implementMany_not_atomic exC 0 (.vobj 1) [("good", .vobj 2)] "bad" (.vobj 2) [] (.vobj 0)
    (by decide) (by decide)

/-- A name collision makes `borrowTraits` raise the duplicate-trait
assertion as soon as the colliding name is processed, whatever names
were borrowed successfully before it. -/
theorem borrowGo_collision (selfRef : Nat) (A : Value) (n : String) (rest : List String)
    (hA : A.isNullish = false) :
    ∀ (st : State) (pre : List String) (w : Value),
      (borrowGo selfRef A st pre).2 = .ok w →
      ∀ o1, ((borrowGo selfRef A st pre).1).heap[selfRef]? = some o1 →
      (alook n o1.strProps).isSome = true →
      (borrowGo selfRef A st (pre ++ n :: rest)).2
        = .error (.assertFail ("Trying to re-define trait `" ++ n ++ "`")) := by
  intro st pre
  induction pre generalizing st with
  | nil =>
    intro w hok o1 ho1 hcol
    simp only [borrowGo, List.nil_append] at ho1 ⊢
    obtain ⟨v, hv⟩ := getStrE_ok st A n hA
    obtain ⟨v0, hv0⟩ := Option.isSome_iff_exists.mp hcol
    simp [hv, addSymbol, ho1, hv0]
  | cons p pre' ih =>
    intro w hok o1 ho1 hcol
    simp only [borrowGo, List.cons_append] at hok ho1 ⊢
    obtain ⟨vp, hvp⟩ := getStrE_ok st A p hA
    simp only [hvp] at hok ho1 ⊢
    cases ha : addSymbol st selfRef p vp with
    | mk st2 r2 =>
      cases r2 with
      | ok x =>
        simp only [ha] at hok ho1 ⊢
        exact ih st2 w hok o1 ho1 hcol
      | error e =>
        simp only [ha] at hok
        exact absurd hok (by simp)

/-- Claim C8: the duplicate guard — `defineTrait(n)` succeeds on a set
without `n` and a second `defineTrait(n)` immediately raises
`DuplicateTraitDefinition`; and borrowing raises the same error as soon
as a borrowed name collides with a name already present in the set
(including names added earlier in the same borrow). -/
theorem C8_duplicate_guard (st : State) (selfRef : Nat) (n : String) (o : JSObj)
    (ho : st.heap[selfRef]? = some o) (hfresh : alook n o.strProps = none) :
    ((defineTrait st selfRef n).2 = .ok (.vsym st.symNames.length) ∧
      (defineTrait (defineTrait st selfRef n).1 selfRef n).2
        = .error (.assertFail ("Trying to re-define trait `" ++ n ++ "`"))) ∧
    (∀ A pre rest w, A.isNullish = false →
      (borrowGo selfRef A st pre).2 = .ok w →
      ∀ o1, ((borrowGo selfRef A st pre).1).heap[selfRef]? = some o1 →
      (alook n o1.strProps).isSome = true →
      (borrowGo selfRef A st (pre ++ n :: rest)).2
        = .error (.assertFail ("Trying to re-define trait `" ++ n ++ "`"))) := by
  constructor
  · have hlt : selfRef < st.heap.length := by
      by_contra hc
      rw [List.getElem?_eq_none (by omega)] at ho
      exact Option.noConfusion ho
    have h1 : defineTrait st selfRef n
        = (setObj { st with symNames := st.symNames ++ [n] } selfRef
            { o with strProps := aset n (.vsym st.symNames.length) o.strProps },
           .ok (.vsym st.symNames.length)) := by
      simp [defineTrait, addSymbol, ho, hfresh]
    have ho2 : (setObj { st with symNames := st.symNames ++ [n] } selfRef
          { o with strProps := aset n (.vsym st.symNames.length) o.strProps }).heap[selfRef]?
        = some { o with strProps := aset n (.vsym st.symNames.length) o.strProps } := by
      simpa [setObj] using getElem?_set_self st.heap selfRef _ hlt
    refine ⟨by rw [h1], ?_⟩
    rw [h1]
    simp [defineTrait, addSymbol, ho2, alook_aset_self]
  · intro A pre rest w hA hok o1 ho1 hcol
    exact borrowGo_collision selfRef A n rest hA st pre w hok o1 ho1 hcol

/-- Witness for C8 at the concrete state `exD`: defining `u` twice on
the set at heap index 1 duplicates, and borrowing the name `t` twice in
one `borrowTraits` call hits the same guard. -/
theorem C8_witness :
    ((defineTrait exD 1 "u").2 = .ok (.vsym 1) ∧
      (defineTrait (defineTrait exD 1 "u").1 1 "u").2
        = .error (.assertFail ("Trying to re-define trait `" ++ "u" ++ "`"))) ∧
    (borrowGo 1 (.vobj 0) exD (["t"] ++ "t" :: [])).2
      = .error (.assertFail ("Trying to re-define trait `" ++ "t" ++ "`")) := by
  have h := C8_duplicate_guard exD 1 "u"
    { strProps := [], symProps := [], proto := none, call := none } (by rfl) (by decide)
  refine ⟨h.1, ?_⟩
  have h2 := C8_duplicate_guard exD 1 "t"
    { strProps := [], symProps := [], proto := none, call := none } (by rfl) (by decide)
  exact h2.2 (.vobj 0) ["t"] [] (.vobj 1) (by decide) (by decide)
    { strProps := [("t", Value.vsym 0)], symProps := [], proto := none, call := none }
    (by rfl) (by decide)

/-- Claim C10: dispatch tests the stored binding for truthiness, so a
target whose binding for the trait is falsy is treated as unbound: the
default implementation is invoked when registered, and otherwise
`NoImplementation` is raised; the falsy binding itself is never
invoked. -/
theorem C10_falsy_binding_is_unbound (st : State) (symId fuel r : Nat) (bv : Value)
    (args : List Value)
    (hb : getSym st (.vobj r) symId = bv)
    (hf : truthy bv = false) :
    (∀ d, alook symId st.defaultImpls = some d →
      dispatch st fuel symId (.vobj r) args = callValue st fuel d .undefined (.vobj r :: args)) ∧
    (alook symId st.defaultImpls = none →
      dispatch st fuel symId (.vobj r) args
        = .error (.noImpl (".*" ++ symDiagName st symId ++ " called on " ++
            "[object Object]" ++ " that doesn't implement it."))) := by
  subst hb
  constructor
  · intro d hd; simp [dispatch, Value.isNullish, hf, hd]
  · intro hd; simp [dispatch, Value.isNullish, hf, hd, toStrE]

/-- Witness for C10: in `exE` the object at heap index `0` has the
trait bound to the falsy value `false` and a default is registered, so
dispatch invokes the default; in `exA` (falsy lookup, no default)
dispatch raises `NoImplementation`. -/
theorem C10_witness :
    dispatch exE 1 0 (.vobj 0) [] = callValue exE 1 (.vobj 1) .undefined [.vobj 0] ∧
    dispatch exA 1 0 (.vobj 0) []
      = .error (.noImpl (".*" ++ symDiagName exA 0 ++ " called on " ++
          "[object Object]" ++ " that doesn't implement it.")) :=
  ⟨(C10_falsy_binding_is_unbound exE 0 1 0 (.vbool false) [] (by decide) (by decide)).1
      (.vobj 1) (by decide),
   (C10_falsy_binding_is_unbound exA 0 1 0 .undefined [] (by decide) (by decide)).2 (by decide)⟩



/-- Unfolding of one step of the symbol-lookup chain through its view. -/
theorem getSymChain_succ_view (h : List JSObj) (s f r : Nat) :
    getSymChain h (f + 1) r s =
      match symView h s r with
      | (some v, _) => v
      | (none, some p) => getSymChain h f p s
      | (none, none) => .undefined := by
  cases ho : h[r]? with
  | none => simp [getSymChain, symView, ho]
  | some o =>
    cases hl : alook s o.symProps with
    | some v => simp [getSymChain, symView, ho, hl]
    | none =>
      cases hp : o.proto with
      | some p => simp [getSymChain, symView, ho, hl, hp]
      | none => simp [getSymChain, symView, ho, hl, hp]

/-- Two heaps with the same view for `s` at every slot resolve `s`
identically at every fuel. -/
theorem getSymChain_congr (h h' : List JSObj) (s : Nat)
    (H : ∀ q, symView h' s q = symView h s q) :
    ∀ f r, getSymChain h' f r s = getSymChain h f r s := by
  intro f
  induction f with
  | zero => intro r; rfl
  | succ f ih =>
    intro r
    rw [getSymChain_succ_view, getSymChain_succ_view, H r]
    cases hv : symView h s r with
    | mk a b =>
      cases a with
      | some v => rfl
      | none =>
        cases b with
        | some p => exact ih p
        | none => rfl

/-- Increasing the fuel cannot change a lookup that already produced a
defined value. -/
theorem getSymChain_mono (h : List JSObj) (s : Nat) :
    ∀ f f' r, f ≤ f' → getSymChain h f r s ≠ .undefined →
      getSymChain h f' r s = getSymChain h f r s := by
  intro f
  induction f with
  | zero => intro f' r _ hne; exact absurd rfl hne
  | succ f ih =>
    intro f' r hle hne
    obtain ⟨f'', rfl⟩ : ∃ f'', f' = f'' + 1 := by
      cases f' with
      | zero => omega
      | succ k => exact ⟨k, rfl⟩
    rw [getSymChain_succ_view] at hne ⊢
    rw [getSymChain_succ_view]
    cases hv : symView h s r with
    | mk a b =>
      rw [hv] at hne
      cases a with
      | some v => rfl
      | none =>
        cases b with
        | some p => exact ih f'' p (by omega) hne
        | none => exact absurd rfl hne

/-- Stability facts preserved by the adaptation loop, relative to a
fixed symbol `s` that was already allocated before the loop continued:
the symbol and heap stores only grow, `s`-lookup observes an unchanged
view of every slot, call behaviours of existing objects are untouched,
and existing string properties keep their values. -/
structure StView (s : Nat) (st st' : State) : Prop where
  symLe : st.symNames.length ≤ st'.symNames.length
  heapLe : st.heap.length ≤ st'.heap.length
  symview : ∀ q, symView st'.heap s q = symView st.heap s q
  callEq : ∀ i, i < st.heap.length →
    (st'.heap[i]?).map JSObj.call = (st.heap[i]?).map JSObj.call
  strPres : ∀ i o', i < st.heap.length → st'.heap[i]? = some o' →
    ∃ o, st.heap[i]? = some o ∧
      ∀ nm v, alook nm o.strProps = some v → alook nm o'.strProps = some v

/-- `StView` is reflexive. -/
theorem StView.refl (s : Nat) (st : State) : StView s st st :=
  ⟨le_rfl, le_rfl, fun _ => rfl, fun _ _ => rfl,
   fun _ o' _ h => ⟨o', h, fun _ _ hv => hv⟩⟩

/-- `StView` composes. -/
theorem StView.comp {s : Nat} {st1 st2 st3 : State}
    (a : StView s st1 st2) (b : StView s st2 st3) : StView s st1 st3 where
  symLe := le_trans a.symLe b.symLe
  heapLe := le_trans a.heapLe b.heapLe
  symview q := (b.symview q).trans (a.symview q)
  callEq i hi := (b.callEq i (lt_of_lt_of_le hi a.heapLe)).trans (a.callEq i hi)
  strPres i o3 hi h3 := by
    obtain ⟨o2, h2, p23⟩ := b.strPres i o3 (lt_of_lt_of_le hi a.heapLe) h3
    obtain ⟨o1, h1, p12⟩ := a.strPres i o2 hi h2
    exact ⟨o1, h1, fun nm v hv => p23 nm v (p12 nm v hv)⟩

/-- Replacing one object by one with the same `s`-bindings, prototype
and call behaviour, and no lost string properties, is `StView`-stable. -/
theorem StView_set (s : Nat) (st st1 : State) (r : Nat) (o o' : JSObj)
    (hh : st1.heap = st.heap.set r o')
    (hsn : st.symNames.length ≤ st1.symNames.length)
    (ho : st.heap[r]? = some o)
    (hsym : alook s o'.symProps = alook s o.symProps)
    (hpr : o'.proto = o.proto)
    (hcall : o'.call = o.call)
    (hstr : ∀ nm v, alook nm o.strProps = some v → alook nm o'.strProps = some v) :
    StView s st st1 := by
  have hlt : r < st.heap.length := by
    by_contra hc
    rw [List.getElem?_eq_none (by omega)] at ho
    exact Option.noConfusion ho
  refine ⟨hsn, by rw [hh]; simp, ?_, ?_, ?_⟩
  · intro q
    by_cases hq : q = r
    · subst hq
      simp [symView, hh, getElem?_set_self st.heap q o' hlt, ho, hsym, hpr]
    · simp [symView, hh, List.getElem?_set_ne (fun hx => hq hx.symm)]
  · intro i hi
    by_cases hq : i = r
    · subst hq
      simp [hh, getElem?_set_self st.heap i o' hlt, ho, hcall]
    · simp [hh, List.getElem?_set_ne (fun hx => hq hx.symm)]
  · intro i o2 hi h2
    rw [hh] at h2
    by_cases hq : i = r
    · subst hq
      rw [getElem?_set_self st.heap i o' hlt] at h2
      obtain rfl : o' = o2 := Option.some.inj h2
      exact ⟨o, ho, hstr⟩
    · rw [List.getElem?_set_ne (fun hx => hq hx.symm)] at h2
      exact ⟨o2, h2, fun _ _ hv => hv⟩

/-- Allocating a fresh object with no binding for `s` and no prototype
is `StView`-stable. -/
theorem StView_push (s : Nat) (st st2 : State) (w : JSObj)
    (hh : st2.heap = st.heap ++ [w])
    (hsn : st.symNames.length ≤ st2.symNames.length)
    (hw : alook s w.symProps = none) (hp : w.proto = none) :
    StView s st st2 := by
  refine ⟨hsn, by rw [hh]; simp, ?_, ?_, ?_⟩
  · intro q
    rcases lt_trichotomy q st.heap.length with hq | hq | hq
    · simp only [symView, hh]
      rw [List.getElem?_append_left hq]
    · subst hq
      have h2 : st.heap[st.heap.length]? = none := List.getElem?_eq_none le_rfl
      simp [symView, hh, List.getElem?_concat_length, h2, hw, hp]
    · have h1 : (st.heap ++ [w])[q]? = none := List.getElem?_eq_none (by simp; omega)
      have h2 : st.heap[q]? = none := List.getElem?_eq_none (by omega)
      simp [symView, hh, h1, h2]
  · intro i hi
    rw [hh, List.getElem?_append_left hi]
  · intro i o' hi h'
    rw [hh, List.getElem?_append_left hi] at h'
    exact ⟨o', h', fun _ _ hv => hv⟩

/-- Outcomes of `defineTrait`: either it throws (leaving the heap
unchanged; the discarded fresh symbol keeps its slot in `symNames`), or
the set gains the fresh symbol under the new name. -/
theorem defineTrait_cases (st : State) (selfRef : Nat) (m : String) :
    (∃ st1 e, defineTrait st selfRef m = (st1, .error e) ∧ st1.heap = st.heap ∧
      st1.symNames = st.symNames ++ [m]) ∨
    (∃ o st1, st.heap[selfRef]? = some o ∧ alook m o.strProps = none ∧
      selfRef < st.heap.length ∧
      defineTrait st selfRef m = (st1, .ok (.vsym st.symNames.length)) ∧
      st1.heap = st.heap.set selfRef
        { o with strProps := aset m (.vsym st.symNames.length) o.strProps } ∧
      st1.symNames = st.symNames ++ [m]) := by
  cases ho : st.heap[selfRef]? with
  | none =>
    exact Or.inl ⟨{ st with symNames := st.symNames ++ [m] }, .typeError,
      by simp [defineTrait, addSymbol, ho], rfl, rfl⟩
  | some o =>
    cases hl : alook m o.strProps with
    | some v0 =>
      exact Or.inl ⟨{ st with symNames := st.symNames ++ [m] },
        .assertFail ("Trying to re-define trait `" ++ m ++ "`"),
        by simp [defineTrait, addSymbol, ho, hl], rfl, rfl⟩
    | none =>
      refine Or.inr ⟨o,
        setObj { st with symNames := st.symNames ++ [m] } selfRef
          { o with strProps := aset m (.vsym st.symNames.length) o.strProps },
        rfl, hl, ?_, by simp [defineTrait, addSymbol, ho, hl], ?_, ?_⟩
      · by_contra hc
        rw [List.getElem?_eq_none (by omega)] at ho
        exact Option.noConfusion ho
      · simp [setObj]
      · simp [setObj]

/-- Outcomes of `impl`: `TypeError` on a non-object target (or a
dangling reference), or the target's own symbol-keyed store gains the
binding. -/
theorem impl_cases (st : State) (s' : Nat) (target v : Value) :
    (impl st s' target v = (st, .error .typeError)) ∨
    (∃ r o st3, target = .vobj r ∧ st.heap[r]? = some o ∧ r < st.heap.length ∧
      impl st s' target v = (st3, .ok (.vsym s')) ∧
      st3.heap = st.heap.set r { o with symProps := aset s' v o.symProps } ∧
      st3.symNames = st.symNames) := by
  cases target with
  | vobj r =>
    cases ho : st.heap[r]? with
    | none => exact Or.inl (by simp [impl, ho])
    | some o =>
      refine Or.inr ⟨r, o, setObj st r { o with symProps := aset s' v o.symProps },
        rfl, ho, ?_, by simp [impl, ho], by simp [setObj], by simp [setObj]⟩
      by_contra hc
      rw [List.getElem?_eq_none (by omega)] at ho
      exact Option.noConfusion ho
  | undefined => exact Or.inl (by simp [impl])
  | vnull => exact Or.inl (by simp [impl])
  | vbool b => exact Or.inl (by simp [impl])
  | vnum n => exact Or.inl (by simp [impl])
  | vstr ss => exact Or.inl (by simp [impl])
  | vsym i => exact Or.inl (by simp [impl])

/-- The adaptation loop only allocates fresh symbols and fresh wrapper
objects: everything it does is `StView`-stable for any symbol allocated
before it ran. -/
theorem adaptGo_stable (selfRef : Nat) (target source : Value) (s : Nat) :
    ∀ (ms : List String) (st : State), s < st.symNames.length →
      StView s st ((adaptGo selfRef target source st ms).1) := by
  intro ms
  induction ms with
  | nil => intro st _; exact StView.refl s st
  | cons m0 rest ih =>
    intro st hs
    rcases defineTrait_cases st selfRef m0 with
      ⟨st1, e, hdt, hh1, hsn1⟩ | ⟨o, st1, ho, hfr, hlt, hdt, hh1, hsn1⟩
    · simp only [adaptGo, hdt]
      exact ⟨by rw [hsn1]; simp, by rw [hh1], fun q => by rw [hh1],
        fun i hi => by rw [hh1], fun i o' hi h' => ⟨o', by rwa [hh1] at h', fun _ _ hv => hv⟩⟩
    · have V1 : StView s st st1 := by
        refine StView_set s st st1 selfRef o _ hh1 (by rw [hsn1]; simp) ho rfl rfl rfl ?_
        intro nm v hv
        have hne : m0 ≠ nm := by
          intro hx
          rw [← hx] at hv
          rw [hv] at hfr
          exact Option.noConfusion hfr
        show alook nm (aset m0 (.vsym st.symNames.length) o.strProps) = some v
        rw [alook_aset_ne m0 nm _ _ hne]
        exact hv
      have V2 : StView s st1 (pushObj st1 (wrapperObj source m0)) :=
        StView_push s st1 _ (wrapperObj source m0) rfl le_rfl rfl rfl
      simp only [adaptGo, hdt]
      rcases impl_cases (pushObj st1 (wrapperObj source m0)) st.symNames.length target
          (.vobj st1.heap.length) with himp | ⟨tr2, o2, st3, htgt, ho2, hlt2, himp, hh3, hsn3⟩
      · simp only [himp]
        exact V1.comp V2
      · have hLs : st.symNames.length ≠ s := Nat.ne_of_gt hs
        have V3 : StView s (pushObj st1 (wrapperObj source m0)) st3 :=
          StView_set s _ st3 tr2 o2 _ hh3 (by rw [hsn3]) ho2
            (alook_aset_ne _ _ _ _ hLs) rfl rfl (fun _ _ hv => hv)
        have hs3 : s < st3.symNames.length := by
          rw [hsn3]
          show s < (st1.symNames).length
          rw [hsn1]
          simp
          omega
        simp only [himp]
        exact ((V1.comp V2).comp V3).comp (ih st3 hs3)


/-- After a successful adaptation run, every adapted method name is a
trait of the set whose symbol is bound on the target to a wrapper
function object forwarding to that method of `source`. -/
theorem adaptGo_binds (selfRef : Nat) (tr : Nat) (source : Value) :
    ∀ (ms : List String) (st : State) (w' : Value) (m : String),
      (adaptGo selfRef (.vobj tr) source st ms).2 = .ok w' →
      m ∈ ms →
      ∃ s wf,
        ownStr ((adaptGo selfRef (.vobj tr) source st ms).1) selfRef m = some (.vsym s) ∧
        getSym ((adaptGo selfRef (.vobj tr) source st ms).1) (.vobj tr) s = .vobj wf ∧
        ((((adaptGo selfRef (.vobj tr) source st ms).1).heap[wf]?).map JSObj.call
          = some (some (.methodWrapper source m))) := by
  intro ms
  induction ms with
  | nil => intro st w' m _ hm; cases hm
  | cons m0 rest ih =>
    intro st w' m hok hm
    rcases defineTrait_cases st selfRef m0 with
      ⟨st1, e, hdt, hh1, hsn1⟩ | ⟨o, st1, ho, hfr, hlt, hdt, hh1, hsn1⟩
    · simp only [adaptGo, hdt] at hok
      exact absurd hok (by simp)
    · simp only [adaptGo, hdt] at hok ⊢
      rcases impl_cases (pushObj st1 (wrapperObj source m0)) st.symNames.length (.vobj tr)
          (.vobj st1.heap.length) with himp | ⟨tr2, o2, st3, htgt, ho2, hlt2, himp, hh3, hsn3⟩
      · simp only [himp] at hok
        exact absurd hok (by simp)
      · injection htgt with htr2
        subst htr2
        simp only [himp] at hok ⊢
        have hlen1 : st1.heap.length = st.heap.length := by
          rw [hh1, List.length_set]
        have hlenB : (pushObj st1 (wrapperObj source m0)).heap.length
            = st.heap.length + 1 := by
          show (st1.heap ++ [wrapperObj source m0]).length = st.heap.length + 1
          rw [List.length_append, hlen1]
          rfl
        have hlen3 : st3.heap.length = st.heap.length + 1 := by
          rw [hh3, List.length_set, hlenB]
        have hselfB : (pushObj st1 (wrapperObj source m0)).heap[selfRef]?
            = some { o with strProps := aset m0 (.vsym st.symNames.length) o.strProps } := by
          show (st1.heap ++ [wrapperObj source m0])[selfRef]? = _
          rw [List.getElem?_append_left (by omega), hh1,
            getElem?_set_self st.heap selfRef _ hlt]
        have hwB : (pushObj st1 (wrapperObj source m0)).heap[st1.heap.length]?
            = some (wrapperObj source m0) := by
          show (st1.heap ++ [wrapperObj source m0])[st1.heap.length]? = _
          exact List.getElem?_concat_length st1.heap _
        have hg : st3.heap[tr]? = some
            { strProps := o2.strProps,
              symProps := aset st.symNames.length (Value.vobj st1.heap.length) o2.symProps,
              proto := o2.proto, call := o2.call } := by
          have hx := getElem?_set_self (pushObj st1 (wrapperObj source m0)).heap tr
            { strProps := o2.strProps,
              symProps := aset st.symNames.length (Value.vobj st1.heap.length) o2.symProps,
              proto := o2.proto, call := o2.call } (by omega)
          rw [← hh3] at hx
          exact hx
        cases hm with
        | head =>
          have f1 : ∃ oS, st3.heap[selfRef]? = some oS ∧
              alook m0 oS.strProps = some (.vsym st.symNames.length) := by
            by_cases htS : tr = selfRef
            · subst htS
              rw [hselfB] at ho2
              obtain rfl := Option.some.inj ho2
              refine ⟨_, hg, ?_⟩
              show alook m0 (aset m0 (Value.vsym st.symNames.length) o.strProps) = _
              exact alook_aset_self _ _ _
            · refine ⟨{ o with strProps := aset m0 (.vsym st.symNames.length) o.strProps },
                ?_, alook_aset_self _ _ _⟩
              rw [hh3, List.getElem?_set_ne htS]
              exact hselfB
          have f2 : getSym st3 (.vobj tr) st.symNames.length = .vobj st1.heap.length := by
            refine getSym_own st3 tr
              { strProps := o2.strProps,
                symProps := aset st.symNames.length (Value.vobj st1.heap.length) o2.symProps,
                proto := o2.proto, call := o2.call }
              _ _ hg ?_
            show alook st.symNames.length
              (aset st.symNames.length (Value.vobj st1.heap.length) o2.symProps) = _
            exact alook_aset_self _ _ _
          have f3 : (st3.heap[st1.heap.length]?).map JSObj.call
              = some (some (.methodWrapper source m0)) := by
            by_cases htw : tr = st1.heap.length
            · rw [htw] at ho2
              rw [hwB] at ho2
              obtain rfl := Option.some.inj ho2
              rw [← htw, hg]
              rfl
            · rw [hh3, List.getElem?_set_ne htw, hwB]
              rfl
          have hs3 : st.symNames.length < st3.symNames.length := by
            rw [hsn3]
            show st.symNames.length < st1.symNames.length
            rw [hsn1]
            simp
          have V := adaptGo_stable selfRef (.vobj tr) source st.symNames.length rest st3 hs3
          obtain ⟨oS, hS, hSl⟩ := f1
          refine ⟨st.symNames.length, st1.heap.length, ?_, ?_, ?_⟩
          · have hltS : selfRef < st3.heap.length := by omega
            have hltF : selfRef < ((adaptGo selfRef (.vobj tr) source st3 rest).1).heap.length :=
              lt_of_lt_of_le hltS V.heapLe
            have hF : ((adaptGo selfRef (.vobj tr) source st3 rest).1).heap[selfRef]?
                = some (((adaptGo selfRef (.vobj tr) source st3 rest).1).heap[selfRef]) :=
              List.getElem?_eq_getElem hltF
            obtain ⟨oS', hS', pres⟩ := V.strPres selfRef _ hltS hF
            obtain rfl : oS = oS' := Option.some.inj (hS.symm.trans hS')
            show ownStr _ selfRef m0 = _
            rw [ownStr, hF]
            exact pres m0 _ hSl
          · have hchain3 : getSymChain st3.heap (st3.heap.length + 1) tr st.symNames.length
                = .vobj st1.heap.length := f2
            have hmono := getSymChain_mono st3.heap st.symNames.length
              (st3.heap.length + 1)
              (((adaptGo selfRef (.vobj tr) source st3 rest).1).heap.length + 1) tr
              (by have := V.heapLe; omega)
              (by rw [hchain3]; intro hx; exact Value.noConfusion hx)
            have hcongr := getSymChain_congr st3.heap
              ((adaptGo selfRef (.vobj tr) source st3 rest).1).heap st.symNames.length
              V.symview
              (((adaptGo selfRef (.vobj tr) source st3 rest).1).heap.length + 1) tr
            show getSymChain ((adaptGo selfRef (.vobj tr) source st3 rest).1).heap
              (((adaptGo selfRef (.vobj tr) source st3 rest).1).heap.length + 1) tr
              st.symNames.length = _
            rw [hcongr, hmono, hchain3]
          · have hltw : st1.heap.length < st3.heap.length := by omega
            rw [V.callEq st1.heap.length hltw]
            exact f3
        | tail _ hmr =>
          exact ih st3 w' m hok hmr


/-- Claim C9: after `S.adaptMethods(target, source, methodNames)`
succeeds, for every name `m` in `methodNames` the set holds a trait
symbol for `m` and dispatching it on the target performs exactly the
method call `source[m]( target, ...args )`, whose result is returned
unchanged, for all arguments. -/
theorem C9_adaptMethods_forwarding (st : State) (selfRef tr : Nat) (source : Value)
    (ms : List String) (m : String) (w' : Value)
    (hok : (defineAndImplMethodsAsTraits st selfRef (.vobj tr) source ms).2 = .ok w')
    (hm : m ∈ ms) :
    ∃ s, ownStr ((defineAndImplMethodsAsTraits st selfRef (.vobj tr) source ms).1) selfRef m
        = some (.vsym s) ∧
      ∀ fuel args,
        dispatch ((defineAndImplMethodsAsTraits st selfRef (.vobj tr) source ms).1) (fuel + 1) s
            (.vobj tr) args
          = jsMethodCall ((defineAndImplMethodsAsTraits st selfRef (.vobj tr) source ms).1) fuel
              source m (.vobj tr :: args) := by
  simp only [defineAndImplMethodsAsTraits] at hok ⊢
  obtain ⟨s, wf, hown, hget, hcall⟩ := adaptGo_binds selfRef tr source ms st w' m hok hm
  refine ⟨s, hown, ?_⟩
  intro fuel args
  obtain ⟨oW, hW, hWc⟩ : ∃ oW,
      ((adaptGo selfRef (.vobj tr) source st ms).1).heap[wf]? = some oW ∧
      oW.call = some (.methodWrapper source m) := by
    cases hW0 : ((adaptGo selfRef (.vobj tr) source st ms).1).heap[wf]? with
    | none => rw [hW0] at hcall; simp at hcall
    | some oW =>
      rw [hW0] at hcall
      refine ⟨oW, rfl, ?_⟩
      simpa using hcall
  cases hg2 : getStrE ((adaptGo selfRef (.vobj tr) source st ms).1) source m with
  | ok fv =>
    simp [dispatch, Value.isNullish, hget, truthy, callValue, hW, hWc, jsMethodCall, hg2]
  | error e =>
    simp [dispatch, Value.isNullish, hget, truthy, callValue, hW, hWc, jsMethodCall, hg2]

/-- Witness for C9 at the concrete state `exB`: adapting method `m` of
the source at heap index 2 onto the target at heap index 1 and
dispatching the new trait forwards to the source method. -/
theorem C9_witness :
    ∃ s, ownStr ((defineAndImplMethodsAsTraits exB 0 (.vobj 1) (.vobj 2) ["m"]).1) 0 "m"
        = some (.vsym s) ∧
      ∀ fuel args,
        dispatch ((defineAndImplMethodsAsTraits exB 0 (.vobj 1) (.vobj 2) ["m"]).1) (fuel + 1) s
            (.vobj 1) args
          = jsMethodCall ((defineAndImplMethodsAsTraits exB 0 (.vobj 1) (.vobj 2) ["m"]).1) fuel
              (.vobj 2) "m" (.vobj 1 :: args) :=
  C9_adaptMethods_forwarding exB 0 1 (.vobj 2) ["m"] "m" (.vobj 0) (by decide) (by decide)

end StraitsUtils
